import Mathlib

/-!
# RFpointcloud: sampling substrate (`Sample.h`)

A shallow embedding of the declarations of `Sample.h`:

* `struct Features` with its default constructor and `operator=`;
* `class Sample` with its data members and inline accessors;
* `class Random` with `candidates` and `sampleWithoutReplacement`.

C++ `int` values are integers (`Int`); the loop counter of `Random::candidates`
stays below `_popSize` and cannot overflow, and the one narrowing conversion (from
Eigen's `Index` to `int` in `getNeighborhoodSize`) is explicit.  A member function
that may touch its object is a function from the object to a result paired with the
object afterwards.  What the code reads from outside itself is an explicit argument:
the permutation of positions that `std::shuffle` realises, and the contents of the
memory behind the population, which the copy of `sampleWithoutReplacement` reaches
when the sample size exceeds the population size.

`Sample::randomSampleFeatures` and `Sample::buildNeighborhood` are only declared
in the header; their bodies are modelled from the specification and marked so.
-/

namespace RFpointcloud

/-! ## Results of a call -/

/-- Modelled from the spec: the error taxonomy of section 7 of the specification.
`Sample.h` declares no error type and contains no `throw`. -/
inductive SampleError where
  | InvalidSubset
  | InvalidNeighborhoodSize
  | OutOfRange
  | SampleSizeExceedsPopulation
  deriving DecidableEq, Repr

/-- The exceptions of the C++ standard library that the embedded code can throw:
`std::length_error`, from the constructor of `std::vector` when the requested length
exceeds `max_size()`. -/
inductive StdException where
  | length_error
  deriving DecidableEq, Repr

/-- What a call does: it returns a value, it fails with an error of the specification's
taxonomy, or it leaves by a C++ exception. -/
inductive Outcome (α : Type) where
  | returned (value : α)
  | raised (error : SampleError)
  | threw (exception : StdException)
  deriving DecidableEq, Repr

/-! ## `struct Features` -/

/-- The `struct Features` of the header: two point identifiers of a neighbourhood and the
index of a projection operation. -/
structure Features where
  _point1 : Int
  _point2 : Int
  _featType : Int
  deriving DecidableEq, Repr

/-- The member `void operator=(Features& feat)`: the call `self = feat`.  The body assigns
`_point1` and `_point2` and nothing else.  The result is the pair of the target after the
call and the argument after the call (it is taken by non-const reference). -/
def Features.operatorAssign (self feat : Features) : Features × Features :=
  ({ self with _point1 := feat._point1, _point2 := feat._point2 }, feat)

/-- The default constructor `Features()`: all three members are initialised to `0`. -/
def Features.Features : Features :=
  { _point1 := 0, _point2 := 0, _featType := 0 }

/-! ## Eigen containers -/

/-- A dynamically sized dense matrix (`Eigen::MatrixXf`, `Eigen::MatrixXi`): its two
dimensions and its coefficients.  The scalar type is a parameter. -/
structure MatrixX (α : Type) where
  rows : Nat
  cols : Nat
  coeff : Fin rows → Fin cols → α

/-- A dynamically sized integer vector (`Eigen::VectorXi`). -/
abbrev VectorXi := List Int

/-- Row `i` of a matrix, as the sequence of its coefficients, when `i` is one of its row
indices. -/
def MatrixX.row? {α : Type} (m : MatrixX α) (i : Int) : Option (List α) :=
  if h : 0 ≤ i ∧ i.toNat < m.rows then some (List.ofFn (m.coeff ⟨i.toNat, h.2⟩)) else none

/-! ## `class Sample` -/

/-- The data members of `class Sample`.  The four pointer members are represented by the
arrays they point to; `F` is the scalar type of the floating-point matrices. -/
structure Sample (F : Type) where
  _labels : VectorXi
  _dataset : MatrixX F
  _indexMat : MatrixX Int
  _distMat : MatrixX F
  _selectedSamplesId : VectorXi
  _features : List Features
  _numClass : Int
  _numSelectedSamples : Int
  _numFeature : Int

/-- The accessor `inline int getNumClasses() { return _numClass; }`. -/
def Sample.getNumClasses {F : Type} (s : Sample F) : Int × Sample F :=
  (s._numClass, s)

/-- The accessor `inline Eigen::VectorXi getSelectedSamplesId() { return _selectedSamplesId; }`
(both overloads have this body). -/
def Sample.getSelectedSamplesId {F : Type} (s : Sample F) : VectorXi × Sample F :=
  (s._selectedSamplesId, s)

/-- The accessor `inline int getNumSelectedSamples() { return _numSelectedSamples; }`. -/
def Sample.getNumSelectedSamples {F : Type} (s : Sample F) : Int × Sample F :=
  (s._numSelectedSamples, s)

/-- The accessor `inline std::vector<Features> getSelectedFeatures() { return _features; }`. -/
def Sample.getSelectedFeatures {F : Type} (s : Sample F) : List Features × Sample F :=
  (s._features, s)

/-- The accessor `inline int getNumFeatures() { return _numFeature; }`. -/
def Sample.getNumFeatures {F : Type} (s : Sample F) : Int × Sample F :=
  (s._numFeature, s)

/-- The conversion of a value of Eigen's `Index` to `int`.  Eigen's headers are not among
the sources; `Index` is `std::ptrdiff_t`, 64 bits wide, and the conversion to the 32-bit `int`
keeps the low 32 bits, read in two's complement. -/
def indexToInt (x : Int) : Int :=
  (x + 2 ^ 31) % 2 ^ 32 - 2 ^ 31

/-- The accessor `inline int getNeighborhoodSize() { return _indexMat->cols(); }`: the column
count, an `Index`, is returned as an `int`. -/
def Sample.getNeighborhoodSize {F : Type} (s : Sample F) : Int × Sample F :=
  (indexToInt (s._indexMat.cols : Int), s)

/-! ## `class Random` -/

/-- The data members of `class Random`; the constructor `Random(popSize, sampleSize)` stores
its two arguments, so it is the constructor of this structure. -/
structure Random where
  _popSize : Int
  _sampleSize : Int
  deriving DecidableEq, Repr

/-- The member `void candidates(std::vector<int> &nums)`:
`for (int i = 0; i < _popSize; ++i) nums.push_back(i);`.  The loop runs for
`i = 0, ..., _popSize - 1`, and not at all when `_popSize <= 0`. -/
def Random.candidates (r : Random) (nums : List Int) : List Int :=
  (List.range r._popSize.toNat).foldl (fun acc (i : Nat) => acc ++ [Int.ofNat i]) nums

/-- The outcome of `std::shuffle(first, last, gen)` on the sequence `xs` when the shuffle
realises the permutation `σ` of positions: position `i` receives the element that stood at
position `σ i`. -/
def shuffle (xs : List Int) (σ : Equiv.Perm (Fin xs.length)) : List Int :=
  List.ofFn (fun i => xs.get (σ i))

/-- The `int` at offset `i` from the start of the storage of `population`: its element `i`,
or, behind its last element, what the memory there holds (`past 0` is the first `int` behind
the population). -/
def readAt (population : List Int) (past : Nat → Int) (i : Nat) : Int :=
  population.getD i (past (i - population.length))

/-- The member `std::vector<int> sampleWithoutReplacement()`.  The population is built by
`candidates` and shuffled; then
`std::vector<int> samples(population.begin(), population.begin() + _sampleSize)` builds a
vector of `_sampleSize` elements and copies that many `int`s from the start of the
population.  There is no check on `_sampleSize`: a negative length is out of range for the
constructor, which throws `std::length_error`, and when `_sampleSize` exceeds the population
size the copy runs on behind the population.  (The C++ standard leaves such a range
undefined; this is what the library code does.) -/
def Random.sampleWithoutReplacement (r : Random)
    (σ : Equiv.Perm (Fin (r.candidates []).length)) (past : Nat → Int) : Outcome (List Int) :=
  let population := shuffle (r.candidates []) σ
  if r._sampleSize < 0 then
    Outcome.threw StdException.length_error
  else
    Outcome.returned ((List.range r._sampleSize.toNat).map (readAt population past))

/-- The set of values of a returned sample sequence. -/
def sampleSet : Outcome (List Int) → Option (Finset Int)
  | Outcome.returned samples => some samples.toFinset
  | _ => none

/-! ## Members of `Sample` whose bodies are not in the header -/

/-- Modelled from the spec: the decomposition of a linear candidate index into a feature,
for a neighbourhood of `k` slots (section 4.2, `sampleFeaturePool`).  The body of
`Sample::randomSampleFeatures` is missing.  `projectionType = idx / (k·(k-1))`; the
remainder is split into `point1 = rem / (k-1)` and a second slot taken from the `k-1` slots
other than `point1`, so the diagonal is left out by construction. -/
def decodeFeature (k idx : Nat) : Features :=
  let rem := idx % (k * (k - 1))
  let point1 := rem / (k - 1)
  let slot := rem % (k - 1)
  { _point1 := (point1 : Int)
    _point2 := ((if slot < point1 then slot else slot + 1 : Nat) : Int)
    _featType := ((idx / (k * (k - 1)) : Nat) : Int) }

/-- The sampler that `randomSampleFeatures` uses: population `k·(k-1)·numProjectionTypes`,
sample size `_numFeature`. -/
def Sample.featureSampler {F : Type} (s : Sample F) (numProjectionTypes : Nat) : Random :=
  { _popSize := ((s._indexMat.cols * (s._indexMat.cols - 1) * numProjectionTypes : Nat) : Int)
    _sampleSize := s._numFeature }

/-- Modelled from the spec: `Sample::randomSampleFeatures` (`sampleFeaturePool` of section
4.2), whose body is missing from the header.  With `k` the column count of the neighbour-index
matrix and `C = k·(k-1)·numProjectionTypes`: the call fails with `InvalidNeighborhoodSize` if
`k < 2` and with `SampleSizeExceedsPopulation` if `_numFeature > C` (section 7); otherwise
`_numFeature` distinct indices are drawn from `{0,…,C-1}` by `Random` and each is mapped by
`decodeFeature`; the pool is replaced, not appended to.  A failing call leaves the view as it
was.  The number of projection types is not a member of `Sample`; it is an argument, and so
are the two arguments of the sampler. -/
def Sample.randomSampleFeatures {F : Type} (s : Sample F) (numProjectionTypes : Nat)
    (σ : Equiv.Perm (Fin ((s.featureSampler numProjectionTypes).candidates []).length))
    (past : Nat → Int) : Outcome Unit × Sample F :=
  if s._indexMat.cols < 2 then
    (Outcome.raised SampleError.InvalidNeighborhoodSize, s)
  else if (s.featureSampler numProjectionTypes)._popSize < s._numFeature then
    (Outcome.raised SampleError.SampleSizeExceedsPopulation, s)
  else
    match (s.featureSampler numProjectionTypes).sampleWithoutReplacement σ past with
    | Outcome.returned ids =>
        (Outcome.returned (),
          { s with _features := ids.map (fun idx => decodeFeature s._indexMat.cols idx.toNat) })
    | Outcome.raised e => (Outcome.raised e, s)
    | Outcome.threw e => (Outcome.threw e, s)

/-- Modelled from the spec: `Sample::buildNeighborhood` (section 4.2), whose body is missing
from the header.  The result is the `k × d` block whose row `j` is the dataset row of the
`j`-th neighbour listed for `pointId`; the call fails with `OutOfRange` if `pointId` is not
a row index of the neighbour-index matrix, and (section 7: a point identifier outside valid
bounds) if a listed neighbour is not a row index of the dataset.  The member is `const`:
the view is returned as it was. -/
def Sample.buildNeighborhood {F : Type} (s : Sample F) (pointId : Int) :
    Outcome (MatrixX F) × Sample F :=
  if hp : 0 ≤ pointId ∧ pointId.toNat < s._indexMat.rows then
    if hn : ∀ j : Fin s._indexMat.cols,
        0 ≤ s._indexMat.coeff ⟨pointId.toNat, hp.2⟩ j ∧
          (s._indexMat.coeff ⟨pointId.toNat, hp.2⟩ j).toNat < s._dataset.rows then
      (Outcome.returned
        { rows := s._indexMat.cols
          cols := s._dataset.cols
          coeff := fun j c =>
            s._dataset.coeff ⟨(s._indexMat.coeff ⟨pointId.toNat, hp.2⟩ j).toNat, (hn j).2⟩ c },
        s)
    else
      (Outcome.raised SampleError.OutOfRange, s)
  else
    (Outcome.raised SampleError.OutOfRange, s)

/-! ## Auxiliary definitions -/

/-- The linear index of the candidate `(p1, p2, t)`: the inverse of `decodeFeature`. -/
def encodeFeature (k p1 p2 t : Nat) : Nat :=
  t * (k * (k - 1)) + (p1 * (k - 1) + (if p2 < p1 then p2 else p2 - 1))

/-- Permutations that carry the part `p` onto the part `q` are the pairs of a bijection of the
parts and a bijection of the complements. -/
def permCarryEquiv {α : Type} (p q : α → Prop) [DecidablePred p] [DecidablePred q] :
    {σ : Equiv.Perm α // ∀ a, p a ↔ q (σ a)} ≃
      ({a // p a} ≃ {a // q a}) × ({a // ¬ p a} ≃ {a // ¬ q a}) where
  toFun σ := (σ.1.subtypeEquiv σ.2, σ.1.subtypeEquiv (fun a => not_congr (σ.2 a)))
  invFun ef := ⟨Equiv.subtypeCongr ef.1 ef.2, by
    intro a
    by_cases h : p a
    · simp [Equiv.subtypeCongr, h, (ef.1 ⟨a, h⟩).2]
    · simp [Equiv.subtypeCongr, h, (ef.2 ⟨a, h⟩).2]⟩
  left_inv σ := by
    apply Subtype.ext
    ext a
    by_cases h : p a
    · simp [Equiv.subtypeCongr, h]
    · simp [Equiv.subtypeCongr, h]
  right_inv ef := by
    apply Prod.ext
    · ext a
      simp [Equiv.subtypeCongr, a.2]
    · ext a
      simp [Equiv.subtypeCongr, a.2]

/-- A view over five points in the plane; the neighbours of a point are the four others.
The pool size is `24 = 4·3·2`, the whole candidate space for two projection types. -/
def exampleView : Sample Int :=
  { _labels := [0, 0, 1, 1, 0]
    _dataset := { rows := 5, cols := 2, coeff := ![![0, 0], ![1, 0], ![0, 1], ![5, 5], ![6, 5]] }
    _indexMat :=
      { rows := 5, cols := 4
        coeff := ![![1, 2, 3, 4], ![0, 2, 3, 4], ![0, 1, 3, 4], ![4, 1, 2, 0], ![3, 1, 2, 0]] }
    _distMat :=
      { rows := 5, cols := 4
        coeff := ![![1, 1, 50, 61], ![1, 2, 41, 50], ![1, 2, 41, 52], ![1, 41, 41, 50],
          ![1, 50, 52, 61]] }
    _selectedSamplesId := [0, 1, 2, 3, 4]
    _features := []
    _numClass := 2
    _numSelectedSamples := 5
    _numFeature := 24 }

/-- A view whose neighbour-index matrix has `2^31` columns (and no row). -/
def wideView : Sample Int :=
  { _labels := []
    _dataset := { rows := 0, cols := 0, coeff := fun i _ => i.elim0 }
    _indexMat := { rows := 0, cols := 2147483648, coeff := fun i _ => i.elim0 }
    _distMat := { rows := 0, cols := 2147483648, coeff := fun i _ => i.elim0 }
    _selectedSamplesId := []
    _features := []
    _numClass := 0
    _numSelectedSamples := 0
    _numFeature := 0 }

/-- A view over a single point whose only listed neighbour is the identifier `7`, which is
not a row of the one-row dataset. -/
def badView : Sample Int :=
  { _labels := [0]
    _dataset := { rows := 1, cols := 2, coeff := ![![3, 4]] }
    _indexMat := { rows := 1, cols := 1, coeff := ![![7]] }
    _distMat := { rows := 1, cols := 1, coeff := ![![0]] }
    _selectedSamplesId := [0]
    _features := []
    _numClass := 1
    _numSelectedSamples := 1
    _numFeature := 0 }

/-! ## Evaluating the embedding -/

theorem candidates_three : Random.candidates ⟨3, 2⟩ [] = [0, 1, 2] := by decide

theorem sample_identity_shuffle :
    Random.sampleWithoutReplacement ⟨3, 2⟩ (Equiv.refl _) (fun _ => 0)
      = Outcome.returned [0, 1] := by
  decide

theorem sample_swapped_shuffle :
    Random.sampleWithoutReplacement ⟨3, 2⟩ (Equiv.swap ⟨0, by decide⟩ ⟨2, by decide⟩)
      (fun _ => 0) = Outcome.returned [2, 1] := by
  decide

theorem sample_oversized :
    Random.sampleWithoutReplacement ⟨3, 5⟩ (Equiv.refl _) (fun i => 100 + (i : Int))
      = Outcome.returned [0, 1, 2, 100, 101] := by
  decide

theorem sample_negative_size :
    Random.sampleWithoutReplacement ⟨3, -1⟩ (Equiv.refl _) (fun _ => 0)
      = Outcome.threw StdException.length_error := by
  decide

theorem decodeFeature_three :
    (List.range 6).map (decodeFeature 3) =
      [⟨0, 1, 0⟩, ⟨0, 2, 0⟩, ⟨1, 0, 0⟩, ⟨1, 2, 0⟩, ⟨2, 0, 0⟩, ⟨2, 1, 0⟩] := by
  decide

/-! ## The population and the shuffle -/

theorem foldl_push_eq (l : List Nat) (nums : List Int) :
    l.foldl (fun acc (i : Nat) => acc ++ [Int.ofNat i]) nums = nums ++ l.map Int.ofNat := by
  induction l generalizing nums with
  | nil => simp
  | cons a l ih =>
    rw [List.foldl_cons, ih, List.map_cons, List.append_assoc]
    rfl

theorem candidates_eq (r : Random) (nums : List Int) :
    r.candidates nums = nums ++ (List.range r._popSize.toNat).map Int.ofNat := by
  unfold Random.candidates
  exact foldl_push_eq _ _

theorem candidates_nil (r : Random) :
    r.candidates [] = (List.range r._popSize.toNat).map Int.ofNat := by
  simp [candidates_eq]

theorem candidates_length (r : Random) : (r.candidates []).length = r._popSize.toNat := by
  simp [candidates_nil]

theorem candidates_nodup (r : Random) : (r.candidates []).Nodup := by
  rw [candidates_nil]
  exact (List.nodup_range _).map (fun a b h => Int.ofNat.inj h)

theorem mem_candidates (r : Random) (x : Int) :
    x ∈ r.candidates [] ↔ 0 ≤ x ∧ x < r._popSize := by
  rw [candidates_nil]
  simp only [List.mem_map, List.mem_range]
  constructor
  · rintro ⟨i, hi, rfl⟩
    simp only [Int.ofNat_eq_coe]
    omega
  · rintro ⟨h0, h1⟩
    refine ⟨x.toNat, by omega, ?_⟩
    simp only [Int.ofNat_eq_coe]
    omega

theorem shuffle_length (xs : List Int) (σ : Equiv.Perm (Fin xs.length)) :
    (shuffle xs σ).length = xs.length := by
  simp [shuffle]

theorem shuffle_perm (xs : List Int) (σ : Equiv.Perm (Fin xs.length)) :
    (shuffle xs σ).Perm xs := by
  have h := Equiv.Perm.ofFn_comp_perm σ (fun i => xs.get i)
  have h2 : List.ofFn (fun i => xs.get i) = xs := List.ofFn_get xs
  rw [h2] at h
  exact h

theorem shuffle_nodup (xs : List Int) (σ : Equiv.Perm (Fin xs.length)) (h : xs.Nodup) :
    (shuffle xs σ).Nodup :=
  (shuffle_perm xs σ).nodup_iff.mpr h

theorem mem_shuffle (xs : List Int) (σ : Equiv.Perm (Fin xs.length)) (x : Int) :
    x ∈ shuffle xs σ ↔ x ∈ xs :=
  (shuffle_perm xs σ).mem_iff

theorem map_readAt_eq_take (l : List Int) (past : Nat → Int) (m : Nat) (hm : m ≤ l.length) :
    (List.range m).map (readAt l past) = l.take m := by
  apply List.ext_getElem
  · simp [List.length_take, hm]
  · intro i h1 h2
    simp only [List.length_map, List.length_range] at h1
    rw [List.getElem_map, List.getElem_range, List.getElem_take]
    exact List.getD_eq_getElem _ _ (by omega)

/-- With `0 ≤ _sampleSize ≤ _popSize` the sampler returns the prefix of that length of the
shuffled population, whatever lies behind the population. -/
theorem sample_eq_take_of (r : Random) (h0 : 0 ≤ r._sampleSize) (hn : r._sampleSize ≤ r._popSize)
    (σ : Equiv.Perm (Fin (r.candidates []).length)) (past : Nat → Int) :
    r.sampleWithoutReplacement σ past =
      Outcome.returned ((shuffle (r.candidates []) σ).take r._sampleSize.toNat) := by
  unfold Random.sampleWithoutReplacement
  have hlen : (shuffle (r.candidates []) σ).length = r._popSize.toNat := by
    rw [shuffle_length, candidates_length]
  simp only
  rw [if_neg (by omega), map_readAt_eq_take _ _ _ (by omega)]

theorem sample_eq_take (n s : Int) (h0 : 0 ≤ s) (hn : s ≤ n)
    (σ : Equiv.Perm (Fin ((Random.mk n s).candidates []).length)) (past : Nat → Int) :
    (Random.mk n s).sampleWithoutReplacement σ past =
      Outcome.returned ((shuffle ((Random.mk n s).candidates []) σ).take s.toNat) :=
  sample_eq_take_of (Random.mk n s) h0 hn σ past

theorem candidates_get (r : Random) (i : Fin (r.candidates []).length) :
    (r.candidates []).get i = (i.val : Int) := by
  rw [List.get_eq_getElem]
  simp [candidates_nil]

theorem shuffle_getElem? (xs : List Int) (σ : Equiv.Perm (Fin xs.length)) (i : Fin xs.length) :
    (shuffle xs σ)[i.val]? = some (xs.get (σ i)) := by
  unfold shuffle
  rw [List.getElem?_ofFn]
  simp [List.ofFnNthVal, i.isLt]

/-! ## Claims about `Random` -/

/-- C1. For every population size `n` and sample size `s` with `0 ≤ s ≤ n` and every outcome
`σ` of the shuffle, `Random(n, s).sampleWithoutReplacement()` returns a sequence of length
exactly `s` whose elements are pairwise distinct and each lie in `[0, n)`. -/
theorem sampleWithoutReplacement_distinct_in_range (n s : Int) (h0 : 0 ≤ s) (hn : s ≤ n)
    (σ : Equiv.Perm (Fin ((Random.mk n s).candidates []).length)) (past : Nat → Int) :
    ∃ samples : List Int,
      (Random.mk n s).sampleWithoutReplacement σ past = Outcome.returned samples ∧
        (samples.length : Int) = s ∧ samples.Nodup ∧ ∀ x ∈ samples, 0 ≤ x ∧ x < n := by
  refine ⟨_, sample_eq_take n s h0 hn σ past, ?_, ?_, ?_⟩
  · rw [List.length_take, shuffle_length, candidates_length]
    simp only
    omega
  · exact (shuffle_nodup _ σ (candidates_nodup _)).sublist (List.take_sublist _ _)
  · intro x hx
    have hx2 := (mem_shuffle _ σ x).mp (List.mem_of_mem_take hx)
    exact (mem_candidates _ x).mp hx2

/-- Instance of C1: population `5`, sample size `3`, positions `0` and `4` swapped. -/
theorem sampleWithoutReplacement_distinct_in_range_witness :
    ∃ samples : List Int,
      (Random.mk 5 3).sampleWithoutReplacement (Equiv.swap ⟨0, by decide⟩ ⟨4, by decide⟩)
          (fun _ => 0) = Outcome.returned samples ∧
        (samples.length : Int) = 3 ∧ samples.Nodup ∧ ∀ x ∈ samples, 0 ≤ x ∧ x < 5 :=
  sampleWithoutReplacement_distinct_in_range 5 3 (by decide) (by decide) _ _

/-- C9. For `n ≥ 0` and `0 ≤ s ≤ s' ≤ n`: the population built first is `0, 1, …, n-1`
(length `n`, ascending, independent of `s`); the result for `s` is the length-`s` prefix of
the shuffled population; and under the same shuffle outcome the result for `s` is a prefix of
the result for `s'`. -/
theorem sampleWithoutReplacement_initial_segment (n s s' : Int) (h0 : 0 ≤ s) (hss : s ≤ s')
    (hn : s' ≤ n) (σ : Equiv.Perm (Fin ((Random.mk n s).candidates []).length))
    (past : Nat → Int) :
    (Random.mk n s).candidates [] = (List.range n.toNat).map Int.ofNat ∧
      (Random.mk n s').candidates [] = (Random.mk n s).candidates [] ∧
      ((Random.mk n s).candidates []).length = n.toNat ∧
      (Random.mk n s).sampleWithoutReplacement σ past =
        Outcome.returned ((shuffle ((Random.mk n s).candidates []) σ).take s.toNat) ∧
      ∃ xs ys : List Int,
        (Random.mk n s).sampleWithoutReplacement σ past = Outcome.returned xs ∧
          (Random.mk n s').sampleWithoutReplacement σ past = Outcome.returned ys ∧
          xs <+: ys := by
  refine ⟨candidates_nil _, rfl, candidates_length _,
    sample_eq_take n s h0 (by omega) σ past, ?_⟩
  refine ⟨_, _, sample_eq_take n s h0 (by omega) σ past,
    sample_eq_take n s' (by omega) hn σ past, ?_⟩
  exact (List.take_prefix_take_left _ (by omega))

/-- Instance of C9: population `4`, sample sizes `1` and `3`, positions `0` and `3` swapped. -/
theorem sampleWithoutReplacement_initial_segment_witness :
    (Random.mk 4 1).candidates [] = [0, 1, 2, 3] ∧
      (Random.mk 4 1).sampleWithoutReplacement (Equiv.swap ⟨0, by decide⟩ ⟨3, by decide⟩)
        (fun _ => 0) = Outcome.returned [3] ∧
      (Random.mk 4 3).sampleWithoutReplacement (Equiv.swap ⟨0, by decide⟩ ⟨3, by decide⟩)
        (fun _ => 0) = Outcome.returned [3, 1, 2] :=
  have h := sampleWithoutReplacement_initial_segment 4 1 3 (by decide) (by decide) (by decide)
    (Equiv.swap ⟨0, by decide⟩ ⟨3, by decide⟩) (fun _ => 0)
  ⟨h.1.trans (by decide), h.2.2.2.1.trans (by decide), by decide⟩

/-- C8. For `n > s > 1` there are two shuffle outcomes for which
`Random(n, s).sampleWithoutReplacement()` returns different sequences, so the output is not a
function of `(n, s)` alone; for a fixed shuffle outcome the returned sequence is unique. -/
theorem sampleWithoutReplacement_depends_on_shuffle (n s : Int) (hs : 1 < s) (hn : s < n)
    (past : Nat → Int) :
    (∃ (σ₁ σ₂ : Equiv.Perm (Fin ((Random.mk n s).candidates []).length)) (xs ys : List Int),
        (Random.mk n s).sampleWithoutReplacement σ₁ past = Outcome.returned xs ∧
          (Random.mk n s).sampleWithoutReplacement σ₂ past = Outcome.returned ys ∧ xs ≠ ys) ∧
      ∀ σ : Equiv.Perm (Fin ((Random.mk n s).candidates []).length),
        ∃! xs : List Int,
          (Random.mk n s).sampleWithoutReplacement σ past = Outcome.returned xs := by
  have hlen : ((Random.mk n s).candidates []).length = n.toNat := candidates_length _
  have h0 : 0 < ((Random.mk n s).candidates []).length := by rw [hlen]; omega
  have h1 : 1 < ((Random.mk n s).candidates []).length := by rw [hlen]; omega
  constructor
  · refine ⟨Equiv.refl _, Equiv.swap ⟨0, h0⟩ ⟨1, h1⟩, _, _,
      sample_eq_take n s (by omega) (by omega) _ past,
      sample_eq_take n s (by omega) (by omega) _ past, ?_⟩
    intro heq
    have hget := congrArg (fun l : List Int => l[0]?) heq
    simp only at hget
    have hpos : 0 < s.toNat := by omega
    rw [List.getElem?_take_of_lt hpos, List.getElem?_take_of_lt hpos] at hget
    have e1 := shuffle_getElem? ((Random.mk n s).candidates []) (Equiv.refl _) ⟨0, h0⟩
    have e2 := shuffle_getElem? ((Random.mk n s).candidates [])
      (Equiv.swap ⟨0, h0⟩ ⟨1, h1⟩) ⟨0, h0⟩
    simp only [Equiv.refl_apply, Equiv.swap_apply_left, candidates_get] at e1 e2
    rw [e1, e2] at hget
    simp at hget
  · intro σ
    refine ⟨_, sample_eq_take n s (by omega) (by omega) σ past, ?_⟩
    intro ys hys
    rw [sample_eq_take n s (by omega) (by omega) σ past] at hys
    exact (Outcome.returned.inj hys).symm

/-- Instance of C8: population `3`, sample size `2`. -/
theorem sampleWithoutReplacement_depends_on_shuffle_witness :
    (∃ (σ₁ σ₂ : Equiv.Perm (Fin ((Random.mk 3 2).candidates []).length)) (xs ys : List Int),
        (Random.mk 3 2).sampleWithoutReplacement σ₁ (fun _ => 0) = Outcome.returned xs ∧
          (Random.mk 3 2).sampleWithoutReplacement σ₂ (fun _ => 0) = Outcome.returned ys ∧
          xs ≠ ys) ∧
      ∀ σ : Equiv.Perm (Fin ((Random.mk 3 2).candidates []).length),
        ∃! xs : List Int,
          (Random.mk 3 2).sampleWithoutReplacement σ (fun _ => 0) = Outcome.returned xs :=
  sampleWithoutReplacement_depends_on_shuffle 3 2 (by decide) (by decide) (fun _ => 0)

/-- C5, as stated, fails: the value built by the default constructor `Features()` has
`_point1 = _point2` (both are `0`), so it does not satisfy `_point1 != _point2`. -/
theorem Features_default_points_equal :
    ¬ (Features.Features._point1 ≠ Features.Features._point2) := by
  decide

/-- C5, amended. The default constructor `Features()` builds the value with
`_point1 = _point2 = 0` and `_featType = 0`; `Features::operator=` preserves
`_point1 != _point2`: if the source satisfies it, the target satisfies it after the
assignment. -/
theorem operatorAssign_preserves_distinct (a b : Features) (h : b._point1 ≠ b._point2) :
    Features.Features = { _point1 := 0, _point2 := 0, _featType := 0 } ∧
      (a.operatorAssign b).1._point1 ≠ (a.operatorAssign b).1._point2 :=
  ⟨rfl, h⟩

/-- Instance of the amended C5: a default-constructed target assigned from `(1, 2, 7)`. -/
theorem operatorAssign_preserves_distinct_witness :
    Features.Features = { _point1 := 0, _point2 := 0, _featType := 0 } ∧
      (Features.Features.operatorAssign ⟨1, 2, 7⟩).1._point1 ≠
        (Features.Features.operatorAssign ⟨1, 2, 7⟩).1._point2 :=
  operatorAssign_preserves_distinct Features.Features ⟨1, 2, 7⟩ (by decide)

/-- C10. After the assignment `a = b` (`Features::operator=`): `a._point1` equals
`b._point1`, `a._point2` equals `b._point2`, `a._featType` keeps the value it had before, and
`b` is unchanged; so `a` equals `b` in all three fields after the assignment only if their
`_featType` already agreed (and then it does). -/
theorem operatorAssign_copies_points_only (a b : Features) :
    (a.operatorAssign b).1._point1 = b._point1 ∧
      (a.operatorAssign b).1._point2 = b._point2 ∧
      (a.operatorAssign b).1._featType = a._featType ∧
      (a.operatorAssign b).2 = b ∧
      ((a.operatorAssign b).1 = (a.operatorAssign b).2 ↔ a._featType = b._featType) := by
  refine ⟨rfl, rfl, rfl, rfl, ?_⟩
  cases a
  cases b
  simp [Features.operatorAssign]

/-! ## Claims about the accessors of `Sample` -/

theorem indexToInt_of_lt (c : Nat) (h : c < 2 ^ 31) : indexToInt (c : Int) = (c : Int) := by
  unfold indexToInt
  have h2 : (c : Int) < 2147483648 := by
    have : (2 : Nat) ^ 31 = 2147483648 := by norm_num
    omega
  norm_num
  omega

/-- C7, as stated, fails: for a neighbour-index matrix with `2^31` columns
`getNeighborhoodSize` does not return the column count; the conversion of Eigen's `Index` to
`int` gives `-2^31`. -/
theorem getNeighborhoodSize_wide_matrix :
    (wideView._indexMat.cols : Int) = 2147483648 ∧
      wideView.getNeighborhoodSize.1 = -2147483648 ∧
      wideView.getNeighborhoodSize.1 ≠ (wideView._indexMat.cols : Int) := by
  refine ⟨rfl, ?_, ?_⟩ <;> simp [Sample.getNeighborhoodSize, indexToInt, wideView]

/-- C7, amended. Every accessor of `Sample` is a pure read: `getNumClasses`,
`getSelectedSamplesId`, `getNumSelectedSamples`, `getSelectedFeatures` and `getNumFeatures`
return the stored `_numClass`, `_selectedSamplesId`, `_numSelectedSamples`, `_features` and
`_numFeature`; `getNeighborhoodSize` returns the column count of the neighbour-index matrix
converted to `int`, which is the column count itself whenever that is below `2^31`; and after
each call the view (every field of it) is what it was before. -/
theorem Sample_accessors_pure_reads {F : Type} (s : Sample F) :
    (s.getNumClasses.1 = s._numClass ∧ s.getNumClasses.2 = s) ∧
      (s.getSelectedSamplesId.1 = s._selectedSamplesId ∧ s.getSelectedSamplesId.2 = s) ∧
      (s.getNumSelectedSamples.1 = s._numSelectedSamples ∧ s.getNumSelectedSamples.2 = s) ∧
      (s.getSelectedFeatures.1 = s._features ∧ s.getSelectedFeatures.2 = s) ∧
      (s.getNumFeatures.1 = s._numFeature ∧ s.getNumFeatures.2 = s) ∧
      (s.getNeighborhoodSize.1 = indexToInt (s._indexMat.cols : Int) ∧
        (s._indexMat.cols < 2 ^ 31 → s.getNeighborhoodSize.1 = (s._indexMat.cols : Int)) ∧
        s.getNeighborhoodSize.2 = s) :=
  ⟨⟨rfl, rfl⟩, ⟨rfl, rfl⟩, ⟨rfl, rfl⟩, ⟨rfl, rfl⟩, ⟨rfl, rfl⟩,
    ⟨rfl, fun h => indexToInt_of_lt _ h, rfl⟩⟩

/-- Instance of the amended C7: the neighbourhood size of `exampleView` is `4`. -/
theorem Sample_accessors_pure_reads_witness :
    exampleView.getNeighborhoodSize.1 = 4 ∧ exampleView.getNeighborhoodSize.2 = exampleView :=
  have h := (Sample_accessors_pure_reads exampleView).2.2.2.2.2
  ⟨h.2.1 (by decide), h.2.2⟩

/-! ## The feature pool (`randomSampleFeatures`) -/

theorem decodeFeature_injective (k : Nat) (i j : Nat)
    (h : decodeFeature k i = decodeFeature k j) : i = j := by
  simp only [decodeFeature, Features.mk.injEq, Nat.cast_inj] at h
  obtain ⟨h1, h2, h3⟩ := h
  have hslot : i % (k * (k - 1)) % (k - 1) = j % (k * (k - 1)) % (k - 1) := by
    rw [h1] at h2
    split_ifs at h2 <;> omega
  have hrem : i % (k * (k - 1)) = j % (k * (k - 1)) := by
    rw [← Nat.div_add_mod (i % (k * (k - 1))) (k - 1),
      ← Nat.div_add_mod (j % (k * (k - 1))) (k - 1), h1, hslot]
  rw [← Nat.div_add_mod i (k * (k - 1)), ← Nat.div_add_mod j (k * (k - 1)), h3, hrem]

theorem decodeFeature_valid (k P idx : Nat) (hk : 2 ≤ k) (hidx : idx < k * (k - 1) * P) :
    (decodeFeature k idx)._point1 ≠ (decodeFeature k idx)._point2 ∧
      0 ≤ (decodeFeature k idx)._point1 ∧ (decodeFeature k idx)._point1 < (k : Int) ∧
      0 ≤ (decodeFeature k idx)._point2 ∧ (decodeFeature k idx)._point2 < (k : Int) ∧
      0 ≤ (decodeFeature k idx)._featType ∧ (decodeFeature k idx)._featType < (P : Int) := by
  have hm : 0 < k - 1 := by omega
  have hM : 0 < k * (k - 1) := Nat.mul_pos (by omega) hm
  have hrem : idx % (k * (k - 1)) < k * (k - 1) := Nat.mod_lt _ hM
  have hp1 : idx % (k * (k - 1)) / (k - 1) < k := (Nat.div_lt_iff_lt_mul hm).mpr hrem
  have hslot : idx % (k * (k - 1)) % (k - 1) < k - 1 := Nat.mod_lt _ hm
  have hq : idx / (k * (k - 1)) < P := (Nat.div_lt_iff_lt_mul hM).mpr (by rw [Nat.mul_comm]; exact hidx)
  simp only [decodeFeature]
  refine ⟨?_, by positivity, by exact_mod_cast hp1, by positivity, ?_, by positivity,
    by exact_mod_cast hq⟩
  · intro h
    have h2 := Nat.cast_inj.mp h
    split_ifs at h2 <;> omega
  · have : (if idx % (k * (k - 1)) % (k - 1) < idx % (k * (k - 1)) / (k - 1)
        then idx % (k * (k - 1)) % (k - 1) else idx % (k * (k - 1)) % (k - 1) + 1) < k := by
      split_ifs <;> omega
    exact_mod_cast this

theorem encodeFeature_lt (k P p1 p2 t : Nat) (h1 : p1 < k) (h2 : p2 < k)
    (hne : p1 ≠ p2) (ht : t < P) : encodeFeature k p1 p2 t < k * (k - 1) * P := by
  have hslot : (if p2 < p1 then p2 else p2 - 1) < k - 1 := by split_ifs <;> omega
  have hrem : p1 * (k - 1) + (if p2 < p1 then p2 else p2 - 1) < k * (k - 1) := by
    calc p1 * (k - 1) + (if p2 < p1 then p2 else p2 - 1)
        < p1 * (k - 1) + (k - 1) := by omega
      _ = (p1 + 1) * (k - 1) := by ring
      _ ≤ k * (k - 1) := Nat.mul_le_mul_right _ (by omega)
  unfold encodeFeature
  calc t * (k * (k - 1)) + (p1 * (k - 1) + (if p2 < p1 then p2 else p2 - 1))
      < t * (k * (k - 1)) + k * (k - 1) := by omega
    _ = (k * (k - 1)) * (t + 1) := by ring
    _ ≤ k * (k - 1) * P := Nat.mul_le_mul_left _ (by omega)

theorem decodeFeature_encodeFeature (k p1 p2 t : Nat) (h1 : p1 < k) (h2 : p2 < k)
    (hne : p1 ≠ p2) :
    decodeFeature k (encodeFeature k p1 p2 t) =
      { _point1 := (p1 : Int), _point2 := (p2 : Int), _featType := (t : Int) } := by
  have hm : 0 < k - 1 := by omega
  have hM : 0 < k * (k - 1) := Nat.mul_pos (by omega) hm
  have hslot : (if p2 < p1 then p2 else p2 - 1) < k - 1 := by split_ifs <;> omega
  have hrem : p1 * (k - 1) + (if p2 < p1 then p2 else p2 - 1) < k * (k - 1) := by
    calc p1 * (k - 1) + (if p2 < p1 then p2 else p2 - 1)
        < p1 * (k - 1) + (k - 1) := by omega
      _ = (p1 + 1) * (k - 1) := by ring
      _ ≤ k * (k - 1) := Nat.mul_le_mul_right _ (by omega)
  have e1 : encodeFeature k p1 p2 t % (k * (k - 1))
      = p1 * (k - 1) + (if p2 < p1 then p2 else p2 - 1) := by
    unfold encodeFeature
    rw [Nat.add_comm, Nat.add_mul_mod_self_right, Nat.mod_eq_of_lt hrem]
  have e2 : encodeFeature k p1 p2 t / (k * (k - 1)) = t := by
    unfold encodeFeature
    rw [Nat.add_comm, Nat.add_mul_div_right _ _ hM, Nat.div_eq_of_lt hrem, Nat.zero_add]
  have e3 : (p1 * (k - 1) + (if p2 < p1 then p2 else p2 - 1)) / (k - 1) = p1 := by
    rw [Nat.add_comm, Nat.add_mul_div_right _ _ hm, Nat.div_eq_of_lt hslot, Nat.zero_add]
  have e4 : (p1 * (k - 1) + (if p2 < p1 then p2 else p2 - 1)) % (k - 1)
      = (if p2 < p1 then p2 else p2 - 1) := by
    rw [Nat.add_comm, Nat.add_mul_mod_self_right, Nat.mod_eq_of_lt hslot]
  simp only [decodeFeature, e1, e2, e3, e4, Features.mk.injEq, Nat.cast_inj, true_and, and_true]
  split_ifs <;> omega

/-- With `k ≥ 2` and `0 ≤ _numFeature ≤ k·(k-1)·P` the call succeeds and the pool is the image
under `decodeFeature` of the length-`_numFeature` prefix of the shuffled candidate indices. -/
theorem randomSampleFeatures_eq {F : Type} (s : Sample F) (P : Nat)
    (hk : 2 ≤ s._indexMat.cols) (h0 : 0 ≤ s._numFeature)
    (hC : s._numFeature ≤ ((s._indexMat.cols * (s._indexMat.cols - 1) * P : Nat) : Int))
    (σ : Equiv.Perm (Fin ((s.featureSampler P).candidates []).length)) (past : Nat → Int) :
    s.randomSampleFeatures P σ past =
      (Outcome.returned (),
        { s with
          _features :=
            ((shuffle ((s.featureSampler P).candidates []) σ).take s._numFeature.toNat).map
              (fun idx => decodeFeature s._indexMat.cols idx.toNat) }) := by
  unfold Sample.randomSampleFeatures
  rw [if_neg (by omega), if_neg (by simp only [Sample.featureSampler]; omega)]
  rw [sample_eq_take_of (s.featureSampler P) h0 hC σ past]
  rfl

/-- C3, as stated, fails: the claim bounds `k` but not `numFeature`.  For the view
`exampleView` (`k = 4`, `numFeature = 24`) and a single projection type there are only
`4·3·1 = 12` candidates; the call fails with `SampleSizeExceedsPopulation` and the pool is
left as it was (empty), not filled with `numFeature` distinct triples. -/
theorem randomSampleFeatures_pool_too_large :
    2 ≤ exampleView._indexMat.cols ∧
      (exampleView.randomSampleFeatures 1 (Equiv.refl _) (fun _ => 0)).1
        = Outcome.raised SampleError.SampleSizeExceedsPopulation ∧
      (exampleView.randomSampleFeatures 1 (Equiv.refl _) (fun _ => 0)).2._features = [] ∧
      ((exampleView.randomSampleFeatures 1 (Equiv.refl _) (fun _ => 0)).2._features.length : Int)
        ≠ exampleView._numFeature := by
  decide

/-- C3, amended. For a neighbour-index matrix with `k ≥ 2` columns, `P` projection types and
`0 ≤ numFeature ≤ k·(k-1)·P`, `randomSampleFeatures` succeeds and fills the feature pool with
exactly `numFeature` pairwise-distinct triples `(point1, point2, projectionType)`, each with
`point1 ≠ point2`, `point1, point2 ∈ {0,…,k-1}` and `projectionType ∈ {0,…,P-1}`; when
`numFeature = k·(k-1)·P` (as for `k = 4`, `P = 2`, `numFeature = 24`) the pool holds every
such triple, each once. -/
theorem randomSampleFeatures_pool {F : Type} (s : Sample F) (P : Nat)
    (hk : 2 ≤ s._indexMat.cols) (h0 : 0 ≤ s._numFeature)
    (hC : s._numFeature ≤ ((s._indexMat.cols * (s._indexMat.cols - 1) * P : Nat) : Int))
    (σ : Equiv.Perm (Fin ((s.featureSampler P).candidates []).length)) (past : Nat → Int) :
    (s.randomSampleFeatures P σ past).1 = Outcome.returned () ∧
      ((s.randomSampleFeatures P σ past).2._features.length : Int) = s._numFeature ∧
      (s.randomSampleFeatures P σ past).2._features.Nodup ∧
      (∀ f ∈ (s.randomSampleFeatures P σ past).2._features,
        f._point1 ≠ f._point2 ∧
          0 ≤ f._point1 ∧ f._point1 < (s._indexMat.cols : Int) ∧
          0 ≤ f._point2 ∧ f._point2 < (s._indexMat.cols : Int) ∧
          0 ≤ f._featType ∧ f._featType < (P : Int)) ∧
      (s._numFeature = ((s._indexMat.cols * (s._indexMat.cols - 1) * P : Nat) : Int) →
        ∀ p1 p2 t : Nat, p1 < s._indexMat.cols → p2 < s._indexMat.cols → p1 ≠ p2 → t < P →
          ({ _point1 := (p1 : Int), _point2 := (p2 : Int), _featType := (t : Int) } : Features)
            ∈ (s.randomSampleFeatures P σ past).2._features) := by
  rw [randomSampleFeatures_eq s P hk h0 hC σ past]
  have hpop : (s.featureSampler P)._popSize
      = ((s._indexMat.cols * (s._indexMat.cols - 1) * P : Nat) : Int) := rfl
  have hlen : (shuffle ((s.featureSampler P).candidates []) σ).length
      = s._indexMat.cols * (s._indexMat.cols - 1) * P := by
    rw [shuffle_length, candidates_length, hpop]
    exact Int.toNat_ofNat _
  have hmem : ∀ x ∈ (shuffle ((s.featureSampler P).candidates []) σ).take s._numFeature.toNat,
      0 ≤ x ∧ x < ((s._indexMat.cols * (s._indexMat.cols - 1) * P : Nat) : Int) := by
    intro x hx
    have hx2 := (mem_shuffle _ σ x).mp (List.mem_of_mem_take hx)
    exact (mem_candidates _ x).mp hx2
  refine ⟨rfl, ?_, ?_, ?_, ?_⟩
  · simp only [List.length_map, List.length_take, hlen]
    omega
  · refine List.Nodup.map_on ?_ ?_
    · intro x hx y hy hxy
      have hx0 := (hmem x hx).1
      have hy0 := (hmem y hy).1
      have := decodeFeature_injective _ _ _ hxy
      omega
    · exact (shuffle_nodup _ σ (candidates_nodup _)).sublist (List.take_sublist _ _)
  · intro f hf
    simp only [List.mem_map] at hf
    obtain ⟨x, hx, rfl⟩ := hf
    have hx1 := hmem x hx
    exact decodeFeature_valid _ P x.toNat hk (by omega)
  · intro hfull p1 p2 t h1 h2 hne ht
    simp only [List.mem_map]
    refine ⟨(encodeFeature s._indexMat.cols p1 p2 t : Nat), ?_, ?_⟩
    · have hall : (shuffle ((s.featureSampler P).candidates []) σ).take s._numFeature.toNat
          = shuffle ((s.featureSampler P).candidates []) σ := by
        apply List.take_of_length_le
        rw [hlen]
        omega
      rw [hall, mem_shuffle, mem_candidates, hpop]
      have := encodeFeature_lt s._indexMat.cols P p1 p2 t h1 h2 hne ht
      exact ⟨by positivity, by exact_mod_cast this⟩
    · rw [Int.toNat_ofNat]
      exact decodeFeature_encodeFeature _ p1 p2 t h1 h2 hne

/-- Instance of the amended C3: `k = 4`, `P = 2`, `numFeature = 24`; the pool is all 24 triples. -/
theorem randomSampleFeatures_pool_witness :
    (exampleView.randomSampleFeatures 2 (Equiv.swap ⟨0, by decide⟩ ⟨23, by decide⟩) (fun _ => 0)).1
        = Outcome.returned () ∧
      ((exampleView.randomSampleFeatures 2
        (Equiv.swap ⟨0, by decide⟩ ⟨23, by decide⟩) (fun _ => 0)).2._features.length : Int) = 24 ∧
      (exampleView.randomSampleFeatures 2
        (Equiv.swap ⟨0, by decide⟩ ⟨23, by decide⟩) (fun _ => 0)).2._features.Nodup ∧
      ∀ p1 p2 t : Nat, p1 < 4 → p2 < 4 → p1 ≠ p2 → t < 2 →
        ({ _point1 := (p1 : Int), _point2 := (p2 : Int), _featType := (t : Int) } : Features)
          ∈ (exampleView.randomSampleFeatures 2
              (Equiv.swap ⟨0, by decide⟩ ⟨23, by decide⟩) (fun _ => 0)).2._features :=
  have h := randomSampleFeatures_pool exampleView 2 (by decide) (by decide) (by decide)
    (Equiv.swap ⟨0, by decide⟩ ⟨23, by decide⟩) (fun _ => 0)
  ⟨h.1, h.2.1, h.2.2.1, h.2.2.2.2 rfl⟩

/-! ## The neighbourhood block -/

/-- C4, as stated, fails: the claim asks only that `pointId` be a row index of the
neighbour-index matrix.  In `badView` point `0` is one, but the neighbour listed for it is the
identifier `7`, which is no row of the dataset; the call fails with `OutOfRange` and returns
no block. -/
theorem buildNeighborhood_bad_neighbour :
    (0 : Int) ≤ 0 ∧ (0 : Int).toNat < badView._indexMat.rows ∧
      (badView.buildNeighborhood 0).1 = Outcome.raised SampleError.OutOfRange ∧
      badView._dataset.row? 7 = none :=
  ⟨by decide, by decide, rfl, by decide⟩

/-- C4, amended. For every view and every `pointId` that is a row index of the
neighbour-index matrix and whose listed neighbours are all row indices of the dataset,
`buildNeighborhood(pointId)` returns a `k × d` block (`k` neighbours per point, `d` the
dimension of a data point) whose row `j` equals the dataset row
`Dataset[NeighborIndexMatrix[pointId][j]]` for every `j` in `[0, k)`, and the call leaves the
view unchanged. -/
theorem buildNeighborhood_rows {F : Type} (s : Sample F) (pointId : Int)
    (hp : 0 ≤ pointId ∧ pointId.toNat < s._indexMat.rows)
    (hnb : ∀ j : Fin s._indexMat.cols,
      0 ≤ s._indexMat.coeff ⟨pointId.toNat, hp.2⟩ j ∧
        (s._indexMat.coeff ⟨pointId.toNat, hp.2⟩ j).toNat < s._dataset.rows) :
    (s.buildNeighborhood pointId).2 = s ∧
      ∃ block : MatrixX F,
        (s.buildNeighborhood pointId).1 = Outcome.returned block ∧
          block.rows = s._indexMat.cols ∧ block.cols = s._dataset.cols ∧
          ∀ j : Fin s._indexMat.cols,
            ∃ row : List F,
              block.row? (j.val : Int) = some row ∧
                s._dataset.row? (s._indexMat.coeff ⟨pointId.toNat, hp.2⟩ j) = some row ∧
                row.length = s._dataset.cols := by
  unfold Sample.buildNeighborhood
  rw [dif_pos hp, dif_pos hnb]
  refine ⟨rfl, _, rfl, rfl, rfl, ?_⟩
  intro j
  refine ⟨List.ofFn (s._dataset.coeff
    ⟨(s._indexMat.coeff ⟨pointId.toNat, hp.2⟩ j).toNat, (hnb j).2⟩), ?_, ?_, ?_⟩
  · unfold MatrixX.row?
    have hj : 0 ≤ (j.val : Int) ∧ (j.val : Int).toNat < s._indexMat.cols :=
      ⟨by positivity, by simp⟩
    rw [dif_pos hj]
    simp
  · unfold MatrixX.row?
    rw [dif_pos (hnb j)]
  · simp

/-- Instance of the amended C4: the neighbourhood of point `3` of `exampleView`. -/
theorem buildNeighborhood_rows_witness :
    (exampleView.buildNeighborhood 3).2 = exampleView ∧
      ∃ block : MatrixX Int,
        (exampleView.buildNeighborhood 3).1 = Outcome.returned block ∧
          block.rows = 4 ∧ block.cols = 2 ∧
          block.row? 0 = some [6, 5] ∧ block.row? 1 = some [1, 0] ∧
          block.row? 2 = some [0, 1] ∧ block.row? 3 = some [0, 0] := by
  obtain ⟨h1, block, h2, h3, h4, h5⟩ :=
    buildNeighborhood_rows exampleView 3 (by decide) (by decide)
  refine ⟨h1, block, h2, h3, h4, ?_, ?_, ?_, ?_⟩
  · obtain ⟨row, e1, e2, -⟩ := h5 ⟨0, by decide⟩
    exact e1.trans (e2.symm.trans (by decide))
  · obtain ⟨row, e1, e2, -⟩ := h5 ⟨1, by decide⟩
    exact e1.trans (e2.symm.trans (by decide))
  · obtain ⟨row, e1, e2, -⟩ := h5 ⟨2, by decide⟩
    exact e1.trans (e2.symm.trans (by decide))
  · obtain ⟨row, e1, e2, -⟩ := h5 ⟨3, by decide⟩
    exact e1.trans (e2.symm.trans (by decide))

/-! ## Counting the shuffle outcomes behind a sample set -/

theorem card_permCarry {α : Type} [Fintype α] [DecidableEq α] (p q : α → Prop)
    [DecidablePred p] [DecidablePred q] (m : Nat)
    (hp : Fintype.card {a // p a} = m) (hq : Fintype.card {a // q a} = m)
    {inst : Fintype {σ : Equiv.Perm α // ∀ a, p a ↔ q (σ a)}} :
    @Fintype.card {σ : Equiv.Perm α // ∀ a, p a ↔ q (σ a)} inst
      = m.factorial * (Fintype.card α - m).factorial := by
  have e1 : {a // p a} ≃ {a // q a} := Fintype.equivOfCardEq (hp.trans hq.symm)
  have hp2 : Fintype.card {a // ¬ p a} = Fintype.card α - m := by
    rw [Fintype.card_subtype_compl, hp]
  have hq2 : Fintype.card {a // ¬ q a} = Fintype.card α - m := by
    rw [Fintype.card_subtype_compl, hq]
  have e2 : {a // ¬ p a} ≃ {a // ¬ q a} := Fintype.equivOfCardEq (hp2.trans hq2.symm)
  rw [Fintype.card_congr (permCarryEquiv p q), Fintype.card_prod, Fintype.card_equiv e1,
    Fintype.card_equiv e2, hp, hp2]

theorem mem_take_shuffle (xs : List Int) (σ : Equiv.Perm (Fin xs.length)) (m : Nat) (x : Int) :
    x ∈ (shuffle xs σ).take m ↔ ∃ i : Fin xs.length, i.val < m ∧ xs.get (σ i) = x := by
  rw [List.mem_iff_getElem?]
  constructor
  · rintro ⟨n, hn⟩
    rw [List.getElem?_take] at hn
    split_ifs at hn with hlt
    have hnl : n < xs.length := by
      have := (List.getElem?_eq_some_iff.mp hn).1
      rwa [shuffle_length] at this
    refine ⟨⟨n, hnl⟩, hlt, ?_⟩
    have e := shuffle_getElem? xs σ ⟨n, hnl⟩
    simp only at e
    rw [e] at hn
    exact Option.some.inj hn
  · rintro ⟨i, hi, rfl⟩
    exact ⟨i.val, by rw [List.getElem?_take_of_lt hi, shuffle_getElem?]⟩

theorem take_shuffle_toFinset_iff (xs : List Int) (hnd : xs.Nodup)
    (σ : Equiv.Perm (Fin xs.length)) (m : Nat) (S : Finset Int) (hS : ∀ x ∈ S, x ∈ xs) :
    ((shuffle xs σ).take m).toFinset = S ↔
      ∀ i : Fin xs.length, i.val < m ↔ xs.get (σ i) ∈ S := by
  constructor
  · intro h i
    constructor
    · intro hi
      rw [← h, List.mem_toFinset, mem_take_shuffle]
      exact ⟨i, hi, rfl⟩
    · intro hi
      rw [← h, List.mem_toFinset, mem_take_shuffle] at hi
      obtain ⟨j, hj, hji⟩ := hi
      have := σ.injective (List.nodup_iff_injective_get.mp hnd hji)
      rwa [← this]
  · intro h
    ext x
    rw [List.mem_toFinset, mem_take_shuffle]
    constructor
    · rintro ⟨i, hi, rfl⟩
      exact (h i).mp hi
    · intro hx
      obtain ⟨j, rfl⟩ := List.mem_iff_get.mp (hS x hx)
      refine ⟨σ.symm j, (h _).mpr ?_, ?_⟩
      · rwa [Equiv.apply_symm_apply]
      · rw [Equiv.apply_symm_apply]

theorem card_positions_in (xs : List Int) (hnd : xs.Nodup) (S : Finset Int)
    (hS : ∀ x ∈ S, x ∈ xs) :
    Fintype.card {i : Fin xs.length // xs.get i ∈ S} = S.card := by
  rw [Fintype.card_subtype]
  have himg : (Finset.univ.filter (fun i : Fin xs.length => xs.get i ∈ S)).image
      (fun i => xs.get i) = S := by
    ext x
    simp only [Finset.mem_image, Finset.mem_filter, Finset.mem_univ, true_and]
    constructor
    · rintro ⟨i, hi, rfl⟩
      exact hi
    · intro hx
      obtain ⟨j, rfl⟩ := List.mem_iff_get.mp (hS x hx)
      exact ⟨j, hx, rfl⟩
  have hc := Finset.card_image_of_injective
    (Finset.univ.filter (fun i : Fin xs.length => xs.get i ∈ S))
    (List.nodup_iff_injective_get.mp hnd)
  rw [himg] at hc
  exact hc.symm

/-- C2. For `0 ≤ s ≤ n` and every size-`s` subset `S` of `{0,…,n-1}`: among the `n!` shuffle
outcomes (permutations of the population) exactly `s!·(n-s)!` make
`Random(n, s).sampleWithoutReplacement()` return a sequence whose value set is `S` (the same
number for every `S`, so under a uniformly chosen permutation every size-`s` subset is equally
likely), and in particular `S` is returned for some shuffle outcome. -/
theorem sampleWithoutReplacement_subsets_equally_likely (n s : Int) (h0 : 0 ≤ s) (hn : s ≤ n)
    (S : Finset Int) (hS : ∀ x ∈ S, 0 ≤ x ∧ x < n) (hcard : (S.card : Int) = s)
    (past : Nat → Int) :
    Fintype.card (Equiv.Perm (Fin ((Random.mk n s).candidates []).length))
        = n.toNat.factorial ∧
      (Finset.univ.filter
        (fun σ : Equiv.Perm (Fin ((Random.mk n s).candidates []).length) =>
          sampleSet ((Random.mk n s).sampleWithoutReplacement σ past) = some S)).card
        = s.toNat.factorial * (n - s).toNat.factorial ∧
      ∃ σ : Equiv.Perm (Fin ((Random.mk n s).candidates []).length),
        sampleSet ((Random.mk n s).sampleWithoutReplacement σ past) = some S := by
  have hlen : ((Random.mk n s).candidates []).length = n.toNat := candidates_length _
  have hnd : ((Random.mk n s).candidates []).Nodup := candidates_nodup _
  have hS2 : ∀ x ∈ S, x ∈ (Random.mk n s).candidates [] :=
    fun x hx => (mem_candidates _ x).mpr (hS x hx)
  have hiff : ∀ σ : Equiv.Perm (Fin ((Random.mk n s).candidates []).length),
      sampleSet ((Random.mk n s).sampleWithoutReplacement σ past) = some S ↔
        ∀ i : Fin ((Random.mk n s).candidates []).length,
          i.val < s.toNat ↔ ((Random.mk n s).candidates []).get (σ i) ∈ S := by
    intro σ
    rw [sample_eq_take n s h0 hn σ past]
    simp only [sampleSet, Option.some.injEq]
    exact take_shuffle_toFinset_iff _ hnd σ _ S hS2
  have hcount : (Finset.univ.filter
      (fun σ : Equiv.Perm (Fin ((Random.mk n s).candidates []).length) =>
        sampleSet ((Random.mk n s).sampleWithoutReplacement σ past) = some S)).card
      = s.toNat.factorial * (n - s).toNat.factorial := by
    rw [Finset.filter_congr (fun σ _ => hiff σ), ← Fintype.card_subtype]
    have hp : Fintype.card
        {i : Fin ((Random.mk n s).candidates []).length // i.val < s.toNat} = s.toNat := by
      have := Fintype.card_fin_lt_of_le
        (show s.toNat ≤ ((Random.mk n s).candidates []).length by rw [hlen]; omega)
      simpa using this
    have hq : Fintype.card
        {i : Fin ((Random.mk n s).candidates []).length //
          ((Random.mk n s).candidates []).get i ∈ S} = s.toNat := by
      rw [card_positions_in _ hnd S hS2]
      omega
    have hfac : s.toNat.factorial *
        (Fintype.card (Fin ((Random.mk n s).candidates []).length) - s.toNat).factorial
        = s.toNat.factorial * (n - s).toNat.factorial := by
      rw [Fintype.card_fin, hlen]
      congr 2
      omega
    exact (card_permCarry
      (fun i : Fin ((Random.mk n s).candidates []).length => i.val < s.toNat)
      (fun i => ((Random.mk n s).candidates []).get i ∈ S) s.toNat hp hq).trans hfac
  refine ⟨?_, hcount, ?_⟩
  · rw [Fintype.card_perm, Fintype.card_fin, hlen]
  · have hpos : 0 < (Finset.univ.filter
        (fun σ : Equiv.Perm (Fin ((Random.mk n s).candidates []).length) =>
          sampleSet ((Random.mk n s).sampleWithoutReplacement σ past) = some S)).card := by
      rw [hcount]
      exact Nat.mul_pos (Nat.factorial_pos _) (Nat.factorial_pos _)
    obtain ⟨σ, hσ⟩ := Finset.card_pos.mp hpos
    exact ⟨σ, (Finset.mem_filter.mp hσ).2⟩

/-- Instance of C2: `n = 4`, `s = 2`, `S = {1, 3}`; `4` of the `24` shuffle outcomes give `S`. -/
theorem sampleWithoutReplacement_subsets_equally_likely_witness :
    Fintype.card (Equiv.Perm (Fin ((Random.mk 4 2).candidates []).length)) = 24 ∧
      (Finset.univ.filter
        (fun σ : Equiv.Perm (Fin ((Random.mk 4 2).candidates []).length) =>
          sampleSet ((Random.mk 4 2).sampleWithoutReplacement σ (fun _ => 0))
            = some {1, 3})).card = 4 ∧
      ∃ σ : Equiv.Perm (Fin ((Random.mk 4 2).candidates []).length),
        sampleSet ((Random.mk 4 2).sampleWithoutReplacement σ (fun _ => 0)) = some {1, 3} :=
  sampleWithoutReplacement_subsets_equally_likely 4 2 (by decide) (by decide) {1, 3}
    (by decide) (by decide) (fun _ => 0)

end RFpointcloud
